import Mathlib

/-!
# Verification of the ProEPR example notebooks

A shallow embedding of the code authored in the ProEPR example notebooks
(site-pair screening, membrane docking, arbitrary molecular labels, and the
OpenMM score function), together with theorems settling the specification
claims about them.

Conventions:
* numpy float arithmetic is idealised over `ℝ` (or over a generic linear
  ordered field where no transcendental function occurs, so that concrete
  instances can be evaluated over `ℚ`);
* calls into external libraries (chiLife selections, scipy's
  `linear_sum_assignment`, OpenMM's potential energy) are oracles: function
  parameters, constrained by hypotheses stating their documented contracts;
* purely syntactic claims (about save-call shapes, name binding in notebook
  cells, and exception handling constructs) are settled against a syntactic
  embedding of the notebooks' statements.
-/

/-! ## Generic list helpers -/

/-- `nth l n` is the `n`-th element of `l`, if present (numpy-style indexing,
made total with `Option`). -/
def nth {α : Type _} : List α → ℕ → Option α
  | [], _ => none
  | x :: _, 0 => some x
  | _ :: xs, n + 1 => nth xs n

/-- `nth` with a default value. -/
def nthD {α : Type _} (l : List α) (n : ℕ) (d : α) : α := (nth l n).getD d

/-- Overwrite position `n` of a list (numpy `l[n] = v`; out of range is a
no-op, which never occurs in the modelled code). -/
def setAt {α : Type _} : List α → ℕ → α → List α
  | [], _, _ => []
  | _ :: xs, 0, v => v :: xs
  | x :: xs, n + 1, v => x :: setAt xs n v

/-- Fancy-index assignment `p[ix] = vs` (numpy): write the values `vs` at the
index list `ix`, elementwise. -/
def writeList {α : Type _} : List α → List ℕ → List α → List α
  | p, [], _ => p
  | p, _ :: _, [] => p
  | p, i :: ix, v :: vs => writeList (setAt p i v) ix vs

/-- Fancy-index read `v[ix]` (numpy): gather the elements of `v` at the index
list `ix` (`d` stands in for the out-of-range case, which never occurs in the
modelled code). -/
def gatherD {α : Type _} (d : α) (v : List α) (ix : List ℕ) : List α :=
  ix.map (fun i => nthD v i d)

/-- A 3-D point, as stored in coordinate arrays. -/
abbrev Vec3 (α : Type _) := α × α × α

/-- The zero point. -/
def v3zero {α : Type _} [Zero α] : Vec3 α := (0, 0, 0)

/-- Squared Euclidean distance between two 3-D points:
`np.sum((a - b) * (a - b), axis=-1)` for one row. -/
def distSq {α : Type _} [Ring α] (a b : Vec3 α) : α :=
  (a.1 - b.1) ^ 2 + (a.2.1 - b.2.1) ^ 2 + (a.2.2 - b.2.2) ^ 2

/-! ## `match_atoms` (OpenMM score function notebook)

```python
def match_atoms(reference, subject):
    dmin_score = np.inf
    dmap = None
    for i, sub in enumerate(subject.coords):
        diff = reference.positions[:,None, ...] - sub[None, ...]
        diff = diff * diff
        diff = np.sum(diff, axis=-1)
        idx1, idx2 = linear_sum_assignment(diff)
        args = [(a, b) for a, b in zip(idx1, idx2)]
        score = np.sum([diff[arg] for arg in args])
        if score < dmin_score:
            dmap = idx2
            dmin_score = score
    return dmap
```

`linear_sum_assignment` is scipy; it is passed in as an oracle `lsa`. -/

/-- The pairwise squared-distance matrix `diff` between the reference atoms
and one rotamer's atoms. -/
def costMatrix {α : Type _} [Ring α] (refpos sub : List (Vec3 α)) : List (List α) :=
  refpos.map (fun a => sub.map (fun b => distSq a b))

/-- `score = np.sum([diff[arg] for arg in zip(idx1, idx2)])`. -/
def assignScore {α : Type _} [Ring α] (C : List (List α)) (rows cols : List ℕ) : α :=
  ((rows.zip cols).map (fun p => nthD (nthD C p.1 []) p.2 0)).sum

/-- The score the loop body computes for one rotamer `sub`. -/
def rotScore {α : Type _} [Ring α] (lsa : List (List α) → List ℕ × List ℕ)
    (refpos sub : List (Vec3 α)) : α :=
  assignScore (costMatrix refpos sub) (lsa (costMatrix refpos sub)).1
    (lsa (costMatrix refpos sub)).2

/-- The column assignment (`idx2`) the loop body obtains for one rotamer. -/
def colAssign {α : Type _} [Ring α] (lsa : List (List α) → List ℕ × List ℕ)
    (refpos sub : List (Vec3 α)) : List ℕ :=
  (lsa (costMatrix refpos sub)).2

/-- The `for i, sub in enumerate(subject.coords)` loop of `match_atoms`,
carrying `dmin_score` (`none` models the initial `np.inf`) and `dmap`. -/
def matchLoop {α : Type _} [LinearOrderedRing α]
    (lsa : List (List α) → List ℕ × List ℕ) (refpos : List (Vec3 α)) :
    List (List (Vec3 α)) → Option α → Option (List ℕ) → Option (List ℕ)
  | [], _, dmap => dmap
  | sub :: rest, none, _ =>
      matchLoop lsa refpos rest (some (rotScore lsa refpos sub)) (some (colAssign lsa refpos sub))
  | sub :: rest, some m, dmap =>
      if rotScore lsa refpos sub < m then
        matchLoop lsa refpos rest (some (rotScore lsa refpos sub)) (some (colAssign lsa refpos sub))
      else
        matchLoop lsa refpos rest (some m) dmap

/-- `match_atoms(reference, subject)`; `refpos` is `reference.positions`,
`subjCoords` is `subject.coords`. -/
def match_atoms {α : Type _} [LinearOrderedRing α]
    (lsa : List (List α) → List ℕ × List ℕ)
    (refpos : List (Vec3 α)) (subjCoords : List (List (Vec3 α))) : Option (List ℕ) :=
  matchLoop lsa refpos subjCoords none none

/-- The contract of scipy's `linear_sum_assignment` on a square cost matrix
`C`: the returned row indices are `0, …, n-1` in order, the returned column
indices are a permutation of `0, …, n-1`, and the assignment cost is minimal
over all permutations. -/
def isOptimalAssignment {α : Type _} [LinearOrderedRing α]
    (C : List (List α)) (r : List ℕ × List ℕ) : Prop :=
  r.1 = List.range C.length ∧ r.2.Perm (List.range C.length) ∧
    ∀ σ : Equiv.Perm (Fin C.length),
      assignScore C r.1 r.2 ≤
        ((List.finRange C.length).map
          (fun (k : Fin C.length) => nthD (nthD C k.val []) (σ k).val 0)).sum

/-! ## `OpenMMEnergyFunc` (OpenMM score function notebook)

```python
    def prepare_system(self, system):
        psel = self.protein.select_atoms(system.selstr)
        system.efunc_protein_ix = psel.ix
        system.efunc_residue_ix = match_atoms(psel, system)

    def __call__(self, system, **kwargs):
        if not hasattr(system,  'efunc_protein_ix'):
            self.prepare_system(system)
        pose_start = self.protein.positions
        Es = []
        for rot in system.coords:
            pose_start[system.efunc_protein_ix] = rot[system.efunc_residue_ix]
            self.simulation.context.setPositions(pose_start * unit.angstrom)
            energy = ...getPotentialEnergy()...
            Es.append(energy)
        Es = np.array(Es)
        return Es
```
-/

/-- A chiLife "system" (rotamer ensemble) as seen by the energy function: a
selection string, candidate conformations, and the two index attributes that
`prepare_system` installs (`none` models the attribute being absent; for
`efunc_residue_ix` it also covers `match_atoms` returning `None`, which only
happens for an ensemble with no rotamers). -/
structure MMSystem (α : Type _) where
  selstr : String
  coords : List (List (Vec3 α))
  efunc_protein_ix : Option (List ℕ)
  efunc_residue_ix : Option (List ℕ)

/-- The state of an `OpenMMEnergyFunc`: the protein's positions, plus oracles
for the external calls: `selectIx s` models `self.protein.select_atoms(s).ix`
(MDAnalysis), `energy` models the OpenMM simulation's potential energy of a
full pose, and `lsa` models scipy's `linear_sum_assignment`. -/
structure OpenMMEnergyFunc (α : Type _) where
  protein_pos : List (Vec3 α)
  selectIx : String → List ℕ
  energy : List (Vec3 α) → α
  lsa : List (List α) → List ℕ × List ℕ

/-- `OpenMMEnergyFunc.prepare_system`. -/
def prepare_system {α : Type _} [LinearOrderedRing α]
    (ef : OpenMMEnergyFunc α) (sys : MMSystem α) : MMSystem α :=
  { sys with
    efunc_protein_ix := some (ef.selectIx sys.selstr),
    efunc_residue_ix :=
      match_atoms ef.lsa (gatherD v3zero ef.protein_pos (ef.selectIx sys.selstr)) sys.coords }

/-- The `for rot in system.coords` loop of `__call__`: `pose_start` is mutated
in place, so it is threaded through the recursion. -/
def poseLoop {α : Type _} [Zero α] (energy : List (Vec3 α) → α) (ix rix : List ℕ) :
    List (List (Vec3 α)) → List (Vec3 α) → List α
  | [], _ => []
  | rot :: rest, pose =>
      energy (writeList pose ix (gatherD v3zero rot rix)) ::
        poseLoop energy ix rix rest (writeList pose ix (gatherD v3zero rot rix))

/-- `OpenMMEnergyFunc.__call__`: prepare the system if its index attributes
are absent, then score every conformation; returns the energies together with
the (possibly updated) system. -/
def callEfunc {α : Type _} [LinearOrderedRing α]
    (ef : OpenMMEnergyFunc α) (sys : MMSystem α) : List α × MMSystem α :=
  match sys.efunc_protein_ix with
  | none =>
      let sys' := prepare_system ef sys
      (poseLoop ef.energy (sys'.efunc_protein_ix.getD []) (sys'.efunc_residue_ix.getD [])
        sys'.coords ef.protein_pos, sys')
  | some _ =>
      (poseLoop ef.energy (sys.efunc_protein_ix.getD []) (sys.efunc_residue_ix.getD [])
        sys.coords ef.protein_pos, sys)

/-! ## Membrane docking objective (membrane docking notebook)

```python
def objective(par):
    x, y, z, zdepth = par
    R = Rotation.from_euler('xyz', [x, y, z])
    M = R.as_matrix()
    spin_coords = spin_at_ori@M + np.array([0, 0, zdepth])
    resid = spin_coords[:, 2] - depths
    return resid @ resid
```

Points here are `Fin 3 → ℝ`; `spin_at_ori @ M` multiplies each point as a row
vector by the rotation matrix (`Matrix.vecMul`). -/

/-- Rotation about the x axis (scipy convention, column-vector action). -/
noncomputable def rotXmat (t : ℝ) : Matrix (Fin 3) (Fin 3) ℝ :=
  !![1, 0, 0; 0, Real.cos t, -Real.sin t; 0, Real.sin t, Real.cos t]

/-- Rotation about the y axis. -/
noncomputable def rotYmat (t : ℝ) : Matrix (Fin 3) (Fin 3) ℝ :=
  !![Real.cos t, 0, Real.sin t; 0, 1, 0; -Real.sin t, 0, Real.cos t]

/-- Rotation about the z axis. -/
noncomputable def rotZmat (t : ℝ) : Matrix (Fin 3) (Fin 3) ℝ :=
  !![Real.cos t, -Real.sin t, 0; Real.sin t, Real.cos t, 0; 0, 0, 1]

/-- `Rotation.from_euler('xyz', [x, y, z]).as_matrix()`: extrinsic rotations
about x, then y, then z, i.e. `Rz(z) Ry(y) Rx(x)`. -/
noncomputable def eulerXYZ (x y z : ℝ) : Matrix (Fin 3) (Fin 3) ℝ :=
  rotZmat z * rotYmat y * rotXmat x

/-- `resid @ resid` (numpy dot product of two 1-D arrays). -/
def dotL (a b : List ℝ) : ℝ := (List.zipWith (· * ·) a b).sum

/-- The membrane-docking `objective` function: `spin_at_ori` and `depths` are
the notebook globals (origin-centred spin centroids and experimental depths),
`par` is the parameter vector `(x, y, z, zdepth)`. -/
noncomputable def objective (spin_at_ori : List (Fin 3 → ℝ)) (depths : List ℝ)
    (par : ℝ × ℝ × ℝ × ℝ) : ℝ :=
  let M := eulerXYZ par.1 par.2.1 par.2.2.1
  let spin_coords := spin_at_ori.map (fun v => Matrix.vecMul v M + ![0, 0, par.2.2.2])
  let resid := List.zipWith (fun (c : Fin 3 → ℝ) d => c 2 - d) spin_coords depths
  dotL resid resid

/-! ## Site-pair screen (unnamed notebook)

```python
vols = np.array([xl.get_site_volume(res, t4l) for res in tqdm(t4l.residues.resnums)])
select_idxs = np.argwhere(vols > 100).flatten()
possible_residues = t4l.residues.resnums[select_idxs]
SLs = {}
for res, vol in zip(tqdm(possible_residues), vols[select_idxs]):
    SLs[res] = xl.SpinLabel('R1M', res, t4l), vol

pairs = []
scores = []
for perm in tqdm(combinations(SLs, 2)):
    res1, res2 = perm
    (SL1, vol1), (SL2, vol2)  = SLs[res1], SLs[res2]
    mean_dist = np.linalg.norm(SL1.spin_centroid -  SL2.spin_centroid)
    if mean_dist < 25:
        continue
    pairs.append(perm)
    scores.append(mean_dist / (SL2.site - SL1.site) / np.minimum(vol1, vol2)**(1/3))

idx = np.argmin(scores)
site1, site2 = pairs[idx]
```

`xl.SpinLabel` is the external toolkit; its spin centroid at a residue is the
oracle `centroidOf`.  Modelled from the spec: a label ensemble constructed at
a residue `site` exposes `.site` (the residue number it was built at) and
`.spin_centroid` (a single 3-D point); an `SLentry` packages the dictionary
value `SLs[res] = (SpinLabel(...), vol)` together with its key. -/

/-- One entry of the `SLs` dictionary: the residue number (also the label's
`.site`), the label's spin centroid, and the accessible site volume. -/
structure SLentry where
  site : ℕ
  centroid : Vec3 ℝ
  vol : ℝ

/-- Build `SLs` from the zipped residue numbers and volumes, keeping the
residues whose volume exceeds 100 (`vols > 100` selection), in order. -/
noncomputable def selectSLs (centroidOf : ℕ → Vec3 ℝ) : List (ℕ × ℝ) → List SLentry
  | [] => []
  | (res, vol) :: rest =>
      if 100 < vol then ⟨res, centroidOf res, vol⟩ :: selectSLs centroidOf rest
      else selectSLs centroidOf rest

/-- `itertools.combinations(l, 2)`, in iteration order. -/
def pairsOf {β : Type _} : List β → List (β × β)
  | [] => []
  | x :: xs => xs.map (fun y => (x, y)) ++ pairsOf xs

/-- `np.linalg.norm(a - b)` for 3-D points. -/
noncomputable def euclid (a b : Vec3 ℝ) : ℝ := Real.sqrt (distSq a b)

/-- `mean_dist / (SL2.site - SL1.site) / np.minimum(vol1, vol2)**(1/3)`. -/
noncomputable def screenScore (p : SLentry × SLentry) : ℝ :=
  euclid p.1.centroid p.2.centroid / ((p.2.site : ℝ) - (p.1.site : ℝ)) /
    (min p.1.vol p.2.vol) ^ ((1 : ℝ) / 3)

/-- The `for perm in combinations(SLs, 2)` loop: build `pairs` and `scores`,
skipping pairs whose centroid distance is below 25. -/
noncomputable def screenLoop : List (SLentry × SLentry) → List (SLentry × SLentry) × List ℝ
  | [] => ([], [])
  | p :: rest =>
      if euclid p.1.centroid p.2.centroid < 25 then screenLoop rest
      else (p :: (screenLoop rest).1, screenScore p :: (screenLoop rest).2)

/-- `np.argmin` inner loop: carry the best (index, value) seen so far and the
index of the current element; ties keep the earlier index. -/
def argminAux {α : Type _} [LinearOrder α] : List α → ℕ × α → ℕ → ℕ × α
  | [], best, _ => best
  | x :: xs, best, ci =>
      if x < best.2 then argminAux xs (ci, x) (ci + 1) else argminAux xs best (ci + 1)

/-- `np.argmin`: index of the first minimum of a list (0 on the empty list,
where numpy raises instead). -/
def argminIdx {α : Type _} [LinearOrder α] : List α → ℕ
  | [] => 0
  | x :: xs => (argminAux xs (0, x) 1).1

/-! ## `distance_distribution` (toolkit interface)

Modelled from the spec: chiLife's `distance_distribution` itself is not under
`src/` (the notebooks only call it).  Per the spec it is "a function taking
two (or more) label objects and a distance grid, returning a
probability-density array over that grid".  The pointwise density law is
internal to the toolkit, so it is an oracle `densityAt`; the grid structure is
what the spec fixes: the result is the grid mapped through the density. -/

/-- Modelled from the spec: `xl.distance_distribution(label..., r)` evaluates
a probability density, determined by the label ensembles, at every point of
the distance grid `r`. -/
def distance_distribution {L : Type _} (densityAt : List L → ℝ → ℝ)
    (labels : List L) (r : List ℝ) : List ℝ :=
  r.map (fun x => densityAt labels x)

/-! ## Syntactic embedding: `xl.save` call sites

All four calls to the toolkit's save function authored in this repository. -/

/-- One (positional or keyword) argument of an `xl.save` call. -/
inductive SaveArg where
  /-- a file-path string (or f-string) literal -/
  | pathLit (s : String)
  /-- a label or protein object variable -/
  | obj (name : String)
  /-- a `*name` splat of label objects -/
  | starObjs (name : String)
  /-- a keyword argument -/
  | kw (name : String)
deriving DecidableEq

/-- One `xl.save` call site: which file it appears in, and its arguments in
order. -/
structure SaveCall where
  src : String
  args : List SaveArg
deriving DecidableEq

/-- Every `xl.save` call in the repository:
* `xl.save('C2_docked.pdb', *label_list, CPLA_C2, KDE=False)` (membrane docking);
* `xl.save(*labels, prot)` (arbitrary molecular labels);
* `xl.save(f'{tempdir}/tmp.pdb', protein)` (OpenMM score function, `__init__`);
* `xl.save(SL1, SL2, t4l)` (site-pair screen). -/
def saveCalls : List SaveCall :=
  [⟨"06-Membrane Docking.ipynb",
      [.pathLit "C2_docked.pdb", .starObjs "label_list", .obj "CPLA_C2", .kw "KDE"]⟩,
   ⟨"12 - Arbitrary molecular labels.ipynb", [.starObjs "labels", .obj "prot"]⟩,
   ⟨"13 - OpenMM Score Function.ipynb", [.pathLit "{tempdir}/tmp.pdb", .obj "protein"]⟩,
   ⟨"site pair screen notebook", [.obj "SL1", .obj "SL2", .obj "t4l"]⟩]

/-- Does a save call pass a path literal as its first argument? -/
def firstArgIsPath (c : SaveCall) : Bool :=
  match c.args with
  | SaveArg.pathLit _ :: _ => true
  | _ => false

/-- Is an argument a label/protein object (possibly splatted)? -/
def isObjLike : SaveArg → Bool
  | .obj _ => true
  | .starObjs _ => true
  | _ => false

/-- Is an argument a keyword argument? -/
def isKw : SaveArg → Bool
  | .kw _ => true
  | _ => false

/-! ## Syntactic embedding: name binding across notebook cells

Each code cell of each notebook is recorded as the list of global names it
binds and the list of external names it references (names read in the cell
before the cell itself binds them; names both bound and then used inside the
same cell are internal and not listed).  Star imports are recorded as binding
the imported packages' exported names that the notebook later uses. -/

/-- One notebook code cell: the names it binds and the external names it
uses. -/
structure NBCell where
  binds : List String
  uses : List String
deriving DecidableEq

/-- All names bound by a list of cells. -/
def allBinds (cells : List NBCell) : List String := (cells.map NBCell.binds).flatten

/-- Names bound by the cells strictly before index `i`. -/
def boundBefore (cells : List NBCell) (i : ℕ) : List String := allBinds (cells.take i)

/-- Python builtins referenced by the notebooks. -/
def pyBuiltins : List String := ["print", "zip", "enumerate", "isinstance", "hasattr"]

/-- Does every external name used by cell `i` resolve to a builtin or to a
binding of an earlier cell? -/
def cellUsesBound (cells : List NBCell) (i : ℕ) : Bool :=
  ((nthD cells i ⟨[], []⟩).uses).all
    (fun u => (boundBefore cells i).contains u || pyBuiltins.contains u)

/-- Does every cell of the notebook only use names bound by earlier cells (or
builtins)? -/
def notebookBindsOk (cells : List NBCell) : Bool :=
  (List.range cells.length).all (fun i => cellUsesBound cells i)

/-- The site-pair screen notebook's code cells. -/
def partScreenCells : List NBCell :=
  [⟨["combinations", "tqdm", "np", "plt", "xl"], []⟩,
   ⟨["t4l", "vols", "select_idxs", "possible_residues", "SLs", "res", "vol"],
      ["xl", "np", "tqdm", "zip"]⟩,
   ⟨["pairs", "scores", "r", "perm", "res1", "res2", "SL1", "vol1", "SL2", "vol2",
      "mean_dist"],
      ["np", "tqdm", "combinations", "SLs"]⟩,
   ⟨["idx", "site1", "site2"], ["np", "scores", "pairs", "print"]⟩,
   ⟨["SL1", "vol1", "SL2", "vol2", "r", "P", "fig", "ax", "spine"],
      ["SLs", "site1", "site2", "np", "xl", "plt", "t4l"]⟩]

/-- The membrane docking notebook's code cells. -/
def membraneDockingCells : List NBCell :=
  [⟨["np", "Rotation", "minimize", "xl"], []⟩,
   ⟨["CPLA_C2", "sites", "depths", "label_list", "spin_centroids", "spin_at_ori",
      "objective", "fit", "site", "SL"],
      ["xl", "np", "Rotation", "minimize"]⟩,
   ⟨["R", "spin_centroids", "i", "SL"],
      ["Rotation", "fit", "CPLA_C2", "np", "spin_centroids", "enumerate",
        "label_list", "xl"]⟩,
   ⟨["plt"], ["sites", "depths", "spin_centroids"]⟩]

/-- The OpenMM score function notebook's code cells (the two `import *` lines
bind, among others, the openmm names the notebook later references). -/
def openMMCells : List NBCell :=
  [⟨["np", "linear_sum_assignment", "plt", "xl", "TemporaryDirectory", "PDBFile",
      "ForceField", "forcefield", "CutoffNonPeriodic", "unit",
      "LangevinMiddleIntegrator", "Simulation"], []⟩,
   ⟨["match_atoms", "OpenMMEnergyFunc"],
      ["np", "linear_sum_assignment", "enumerate", "zip", "xl",
        "TemporaryDirectory", "PDBFile", "ForceField", "forcefield", "isinstance",
        "CutoffNonPeriodic", "unit", "LangevinMiddleIntegrator", "Simulation",
        "hasattr"]⟩,
   ⟨["protein", "omm_efunc", "RL"], ["xl", "OpenMMEnergyFunc"]⟩,
   ⟨["traj", "de"], ["xl", "protein", "RL", "omm_efunc"]⟩,
   ⟨["fig", "ax"], ["plt", "np", "de"]⟩]

/-- The arbitrary molecular labels notebook's code cells.  Cell 3 is the
distance-distribution computation `P = xl.distance_distribution(*labels, r)`;
cell 4 ends with `xl.save(*labels, prot)`.  No cell of the notebook binds
`labels` or `prot`. -/
def arbLabelsCells : List NBCell :=
  [⟨["np", "plt", "xl"], []⟩,
   ⟨["aln_atoms", "spin_atoms"], ["xl"]⟩,
   ⟨[], ["xl"]⟩,
   ⟨["r", "P"], ["np", "xl", "labels"]⟩,
   ⟨["fig", "ax", "spine"], ["plt", "r", "P", "xl", "labels", "prot"]⟩]

/-! ## Syntactic embedding: statement kinds (error handling)

Every statement authored in the four notebooks, by kind, in source order,
with nested bodies inlined. -/

/-- The kind of one authored Python statement. -/
inductive StmtKind where
  | importStmt
  | assign
  /-- subscripted assignment `x[i] = ...` -/
  | indexAssign
  /-- a bare expression statement (a call, e.g. plotting or `append`) -/
  | exprStmt
  | funcDef
  | classDef
  | forLoop
  | ifGuard
  /-- a `with ...:` block.  By Python semantics the context manager's
  `__exit__` runs even when the body raises, i.e. a `with` block performs
  cleanup on error (without suppressing the exception in the case of
  `TemporaryDirectory`). -/
  | withBlock
  /-- a `try`/`except` (or `try`/`finally`) statement -/
  | tryExcept
  | continueStmt
  | returnStmt
deriving DecidableEq

/-- Does executing this statement catch (or retry after) an exception raised
inside it? Only a `try`/`except` does. -/
def catchesExceptions : StmtKind → Bool
  | .tryExcept => true
  | _ => false

/-- Does this statement run recovery or cleanup code when an exception is
raised inside it? `try` handlers do, and so does a `with` block's
`__exit__`. -/
def performsCleanupOnError : StmtKind → Bool
  | .tryExcept => true
  | .withBlock => true
  | _ => false

/-- Statements of the site-pair screen notebook. -/
def partScreenStmts : List StmtKind :=
  [ -- cell 1: five imports
   .importStmt, .importStmt, .importStmt, .importStmt, .importStmt,
   -- cell 2: t4l, vols, select_idxs, possible_residues, SLs; for-loop over
   -- residues with SLs[res] = ...
   .assign, .assign, .assign, .assign, .assign, .forLoop, .indexAssign,
   -- cell 3: pairs, scores, r; loop with unpacking, mean_dist, guard,
   -- continue, two appends
   .assign, .assign, .assign, .forLoop, .assign, .assign, .assign, .ifGuard,
   .continueStmt, .exprStmt, .exprStmt,
   -- cell 4: idx, site1/site2, print
   .assign, .assign, .exprStmt,
   -- cell 5: unpack, r, P, fig/ax, plotting, spine loop, guard, continue,
   -- spine call, show, save
   .assign, .assign, .assign, .assign, .exprStmt, .exprStmt, .exprStmt,
   .forLoop, .ifGuard, .continueStmt, .exprStmt, .exprStmt, .exprStmt]

/-- Statements of the membrane docking notebook. -/
def membraneDockingStmts : List StmtKind :=
  [ -- cell 1: four imports
   .importStmt, .importStmt, .importStmt, .importStmt,
   -- cell 2: CPLA_C2, sites/depths, label_list, spin_centroids, spin_at_ori;
   -- def objective (x/y/z/zdepth, R, M, spin_coords, resid, return); fit
   .assign, .assign, .assign, .assign, .assign, .funcDef, .assign, .assign,
   .assign, .assign, .assign, .returnStmt, .assign,
   -- cell 3: R, positions update, spin_centroids; loop with to_site and
   -- centroid store; save
   .assign, .assign, .assign, .forLoop, .exprStmt, .indexAssign, .exprStmt,
   -- cell 4: import, plotting
   .importStmt, .exprStmt, .exprStmt, .exprStmt, .exprStmt, .exprStmt, .exprStmt]

/-- Statements of the OpenMM score function notebook. -/
def openMMStmts : List StmtKind :=
  [ -- cell 1: seven imports (incl. two star imports)
   .importStmt, .importStmt, .importStmt, .importStmt, .importStmt, .importStmt,
   .importStmt,
   -- cell 2: def match_atoms (dmin, dmap, loop: diff x3, idx, args, score,
   -- guard, dmap, dmin; return)
   .funcDef, .assign, .assign, .forLoop, .assign, .assign, .assign, .assign,
   .assign, .assign, .ifGuard, .assign, .assign, .returnStmt,
   -- class OpenMMEnergyFunc: __init__ (protein, self.protein, with-block:
   -- save, pdb; ff, ff._forces, omm_system, integrator, self.simulation)
   .classDef, .funcDef, .assign, .assign, .withBlock, .exprStmt, .assign,
   .assign, .assign, .assign, .assign, .assign,
   -- prepare_system (psel, efunc_protein_ix, efunc_residue_ix)
   .funcDef, .assign, .assign, .assign,
   -- __call__ (guard + prepare, pose_start, Es, loop: fancy assign,
   -- setPositions, energy, append; Es, return)
   .funcDef, .ifGuard, .exprStmt, .assign, .assign, .forLoop, .indexAssign,
   .exprStmt, .assign, .exprStmt, .assign, .returnStmt,
   -- cell 3: protein, omm_efunc, RL
   .assign, .assign, .assign,
   -- cell 4: traj/de
   .assign,
   -- cell 5: fig/ax, plotting
   .assign, .exprStmt, .exprStmt, .exprStmt, .exprStmt]

/-- Statements of the arbitrary molecular labels notebook. -/
def arbLabelsStmts : List StmtKind :=
  [ -- cell 1: three imports, style
   .importStmt, .importStmt, .importStmt, .exprStmt,
   -- cell 2: aln_atoms, spin_atoms, create_library
   .assign, .assign, .exprStmt,
   -- cell 3: rotlib_info
   .exprStmt,
   -- cell 4: r, P
   .assign, .assign,
   -- cell 5: fig/ax, plotting, spine loop, guard, continue, spine call,
   -- show, save
   .assign, .exprStmt, .exprStmt, .exprStmt, .forLoop, .ifGuard, .continueStmt,
   .exprStmt, .exprStmt, .exprStmt]

/-- Every statement authored in the repository. -/
def allRepoStmts : List StmtKind :=
  partScreenStmts ++ membraneDockingStmts ++ openMMStmts ++ arbLabelsStmts

/-! ## Syntactic embedding: attribute accesses on label ensembles -/

/-- The interface the spec says label ensembles are accessed through. -/
def ensembleInterface : List String := ["spin_centroid", "coords"]

/-- Every attribute access performed by the notebooks on a label-ensemble
object (`SpinLabel` or `RotamerEnsemble` values), as (file, attribute):
`SL1.spin_centroid`/`SL2.spin_centroid`/`SL1.site`/`SL2.site` in the screen
notebook; `SL.spin_centroid`, `SL.to_site(...)`, `SL.site` in the membrane
docking notebook; `subject.coords`, `system.selstr`, `system.coords`, and the
`system.efunc_*` attributes in the OpenMM notebook. -/
def labelAttrAccesses : List (String × String) :=
  [("site pair screen notebook", "spin_centroid"),
   ("site pair screen notebook", "site"),
   ("06-Membrane Docking.ipynb", "spin_centroid"),
   ("06-Membrane Docking.ipynb", "to_site"),
   ("06-Membrane Docking.ipynb", "site"),
   ("13 - OpenMM Score Function.ipynb", "coords"),
   ("13 - OpenMM Score Function.ipynb", "selstr"),
   ("13 - OpenMM Score Function.ipynb", "efunc_protein_ix"),
   ("13 - OpenMM Score Function.ipynb", "efunc_residue_ix")]

/-! ## Concrete instances (used to evaluate the embedding on closed inputs) -/

/-- A two-atom protein for evaluating the energy function model over `ℚ`. -/
def wEf : OpenMMEnergyFunc ℚ where
  protein_pos := [(0, 0, 0), (1, 0, 0)]
  selectIx := fun _ => [1]
  energy := fun l => (nthD l 1 v3zero).1
  lsa := fun C => (List.range C.length, List.range C.length)

/-- A one-rotamer system for evaluating the energy function model. -/
def wSys : MMSystem ℚ where
  selstr := "resnum 48"
  coords := [[(5, 0, 0)]]
  efunc_protein_ix := none
  efunc_residue_ix := none

/-- The identity assignment, which is optimal on a 1×1 cost matrix. -/
def wLsa : List (List ℚ) → List ℕ × List ℕ :=
  fun C => (List.range C.length, List.range C.length)

/-- A one-atom reference selection. -/
def wRef : List (Vec3 ℚ) := [(0, 0, 0)]

/-- A one-rotamer, one-atom subject ensemble. -/
def wSubj : List (List (Vec3 ℚ)) := [[(1, 0, 0)]]

/-- Spin centroids placing residues 1 and 2 thirty ångströms apart. -/
noncomputable def wCentroidOf : ℕ → Vec3 ℝ :=
  fun r => if r = 1 then (0, 0, 0) else (30, 0, 0)

/-! ## Lemmas: list indexing and fancy-index writes -/

theorem nth_map {α β : Type _} (f : α → β) : ∀ (l : List α) (n : ℕ),
    nth (l.map f) n = (nth l n).map f
  | [], _ => rfl
  | _ :: _, 0 => rfl
  | _ :: xs, n + 1 => nth_map f xs n

theorem nth_none_iff {α : Type _} : ∀ (l : List α) (n : ℕ),
    nth l n = none ↔ l.length ≤ n
  | [], n => by simp [nth]
  | x :: xs, 0 => by simp [nth]
  | x :: xs, n + 1 => by
      simp only [nth, List.length_cons, Nat.succ_le_succ_iff]
      exact nth_none_iff xs n

theorem nth_lt_length {α : Type _} (l : List α) (n : ℕ) (h : n < l.length) :
    ∃ a, nth l n = some a := by
  rcases h' : nth l n with _ | a
  · exact absurd ((nth_none_iff l n).1 h') (by omega)
  · exact ⟨a, rfl⟩

theorem nth_ext {α : Type _} : ∀ (p q : List α), p.length = q.length →
    (∀ n, nth p n = nth q n) → p = q
  | [], [], _, _ => rfl
  | [], _ :: _, h, _ => by simp at h
  | _ :: _, [], h, _ => by simp at h
  | x :: xs, y :: ys, h, hn => by
      have hx : some x = some y := hn 0
      have : xs = ys := nth_ext xs ys (by simpa using h) (fun n => hn (n + 1))
      simp_all

theorem length_setAt {α : Type _} : ∀ (l : List α) (n : ℕ) (v : α),
    (setAt l n v).length = l.length
  | [], _, _ => rfl
  | _ :: _, 0, _ => rfl
  | _ :: xs, n + 1, v => by simp [setAt, length_setAt xs n v]

theorem nth_setAt_of_ne {α : Type _} : ∀ (l : List α) (n m : ℕ) (v : α), m ≠ n →
    nth (setAt l n v) m = nth l m
  | [], _, _, _, _ => rfl
  | _ :: _, 0, 0, _, h => absurd rfl h
  | _ :: _, 0, _ + 1, _, _ => rfl
  | _ :: _, _ + 1, 0, _, _ => rfl
  | _ :: xs, n + 1, m + 1, v, h => nth_setAt_of_ne xs n m v (by omega)

theorem nth_setAt_self {α : Type _} : ∀ (l : List α) (n : ℕ) (v : α),
    nth (setAt l n v) n = (nth l n).map (fun _ => v)
  | [], _, _ => rfl
  | _ :: _, 0, _ => rfl
  | _ :: xs, n + 1, v => nth_setAt_self xs n v

theorem writeList_nil {α : Type _} (p vs : List α) : writeList p [] vs = p := by
  cases vs <;> rfl

theorem writeList_nil_vals {α : Type _} (p : List α) (ix : List ℕ) :
    writeList p ix [] = p := by
  cases ix <;> rfl

theorem length_writeList {α : Type _} : ∀ (ix : List ℕ) (vs p : List α),
    (writeList p ix vs).length = p.length
  | [], vs, p => by rw [writeList_nil]
  | _ :: _, [], p => by rw [writeList_nil_vals]
  | i :: ix, v :: vs, p => by
      simp [writeList, length_writeList ix vs (setAt p i v), length_setAt]

theorem nth_writeList_not_mem {α : Type _} : ∀ (ix : List ℕ) (vs p : List α) (n : ℕ),
    n ∉ ix.take vs.length → nth (writeList p ix vs) n = nth p n
  | [], _, p, _, _ => by rw [writeList_nil]
  | _ :: _, [], p, _, _ => by rw [writeList_nil_vals]
  | i :: ix, v :: vs, p, n, h => by
      have hne : n ≠ i := by
        intro he; exact h (by simp [he, List.take])
      have hrest : n ∉ ix.take vs.length := by
        intro hm; exact h (by simp [List.take, hm])
      simp only [writeList]
      rw [nth_writeList_not_mem ix vs (setAt p i v) n hrest, nth_setAt_of_ne p i n v hne]

theorem writeList_eq_of_agree {α : Type _} : ∀ (ix : List ℕ) (w p q : List α),
    p.length = q.length → (∀ n, n ∉ ix.take w.length → nth p n = nth q n) →
    writeList p ix w = writeList q ix w
  | [], w, p, q, hl, ha => by
      rw [writeList_nil, writeList_nil]
      exact nth_ext p q hl (fun n => ha n (by simp))
  | _ :: _, [], p, q, hl, ha => by
      rw [writeList_nil_vals, writeList_nil_vals]
      exact nth_ext p q hl (fun n => ha n (by simp))
  | i :: ix, v :: w, p, q, hl, ha => by
      simp only [writeList]
      refine writeList_eq_of_agree ix w (setAt p i v) (setAt q i v)
        (by rw [length_setAt, length_setAt, hl]) (fun n hn => ?_)
      by_cases hni : n = i
      · subst hni
        rw [nth_setAt_self, nth_setAt_self]
        rcases hp : nth p n with _ | a
        · have hq : nth q n = none := by
            rw [nth_none_iff] at hp ⊢; omega
          rw [hq]
        · have hlt : n < p.length := by
            by_contra hc
            rw [show nth p n = none from (nth_none_iff p n).2 (by omega)] at hp
            exact Option.noConfusion hp
          obtain ⟨b, hq⟩ := nth_lt_length q n (by omega)
          rw [hq]
          rfl
      · rw [nth_setAt_of_ne p i n v hni, nth_setAt_of_ne q i n v hni]
        refine ha n ?_
        simp only [List.length_cons, List.take, List.mem_cons]
        rintro (rfl | hmem)
        · exact hni rfl
        · exact hn hmem

theorem writeList_overwrite {α : Type _} (ix : List ℕ) (v w p : List α)
    (hvw : v.length = w.length) :
    writeList (writeList p ix v) ix w = writeList p ix w :=
  writeList_eq_of_agree ix w (writeList p ix v) p (length_writeList ix v p)
    (fun n hn => nth_writeList_not_mem ix v p n (by rw [hvw]; exact hn))

theorem length_gatherD {α : Type _} (d : α) (v : List α) (ix : List ℕ) :
    (gatherD d v ix).length = ix.length := by
  simp [gatherD]

/-! ## Lemmas: the `__call__` pose loop -/

theorem poseLoop_eq_map {α : Type _} [Zero α] (energy : List (Vec3 α) → α)
    (ix rix : List ℕ) : ∀ (coords : List (List (Vec3 α))) (pose : List (Vec3 α)),
    poseLoop energy ix rix coords pose =
      coords.map (fun rot => energy (writeList pose ix (gatherD v3zero rot rix)))
  | [], _ => rfl
  | rot :: rest, pose => by
      simp only [poseLoop, List.map]
      rw [poseLoop_eq_map energy ix rix rest (writeList pose ix (gatherD v3zero rot rix))]
      congr 1
      refine List.map_congr_left (fun r _ => ?_)
      rw [writeList_overwrite ix (gatherD v3zero rot rix) (gatherD v3zero r rix) pose
        (by rw [length_gatherD, length_gatherD])]

/-! ## Lemmas: the `match_atoms` loop -/

theorem matchLoop_min {α : Type _} [LinearOrderedRing α]
    (lsa : List (List α) → List ℕ × List ℕ) (refpos : List (Vec3 α)) :
    ∀ (l : List (List (Vec3 α))) (m : α) (d : List ℕ),
    ∃ r, matchLoop lsa refpos l (some m) (some d) = some r ∧
      ((r = d ∧ ∀ s ∈ l, m ≤ rotScore lsa refpos s) ∨
        (∃ s ∈ l, r = colAssign lsa refpos s ∧ rotScore lsa refpos s ≤ m ∧
          ∀ t ∈ l, rotScore lsa refpos s ≤ rotScore lsa refpos t))
  | [], m, d => ⟨d, rfl, Or.inl ⟨rfl, by simp⟩⟩
  | sub :: rest, m, d => by
      by_cases h : rotScore lsa refpos sub < m
      · obtain ⟨r, hr, hspec⟩ :=
          matchLoop_min lsa refpos rest (rotScore lsa refpos sub) (colAssign lsa refpos sub)
        refine ⟨r, by simp [matchLoop, if_pos h, hr], Or.inr ?_⟩
        rcases hspec with ⟨rfl, hall⟩ | ⟨s, hs, rfl, hle, hall⟩
        · refine ⟨sub, List.mem_cons_self _ _, rfl, le_of_lt h, ?_⟩
          intro t ht
          rcases List.mem_cons.1 ht with rfl | ht
          · exact le_refl _
          · exact hall t ht
        · refine ⟨s, List.mem_cons_of_mem _ hs, rfl, le_of_lt (lt_of_le_of_lt hle h), ?_⟩
          intro t ht
          rcases List.mem_cons.1 ht with rfl | ht
          · exact hle
          · exact hall t ht
      · obtain ⟨r, hr, hspec⟩ := matchLoop_min lsa refpos rest m d
        refine ⟨r, by simp [matchLoop, if_neg h, hr], ?_⟩
        rcases hspec with ⟨rfl, hall⟩ | ⟨s, hs, rfl, hle, hall⟩
        · refine Or.inl ⟨rfl, fun t ht => ?_⟩
          rcases List.mem_cons.1 ht with rfl | ht
          · exact le_of_not_lt h
          · exact hall t ht
        · refine Or.inr ⟨s, List.mem_cons_of_mem _ hs, rfl, hle, fun t ht => ?_⟩
          rcases List.mem_cons.1 ht with rfl | ht
          · exact le_trans hle (le_of_not_lt h)
          · exact hall t ht

/-! ## Lemmas: sums of squares (membrane docking) -/

theorem dotL_self_zipWith_sub (f : (Fin 3 → ℝ) → ℝ) :
    ∀ (l1 : List (Fin 3 → ℝ)) (l2 : List ℝ),
    dotL (List.zipWith (fun c d => f c - d) l1 l2) (List.zipWith (fun c d => f c - d) l1 l2) =
      (List.zipWith (fun c d => (f c - d) ^ 2) l1 l2).sum
  | [], _ => by simp [dotL]
  | _ :: _, [] => by simp [dotL]
  | c :: l1, d :: l2 => by
      simp only [List.zipWith, dotL, List.sum_cons]
      rw [← dotL, dotL_self_zipWith_sub f l1 l2]
      ring_nf

theorem sum_sq_nonneg : ∀ (l1 : List (Fin 3 → ℝ)) (l2 : List ℝ)
    (g : (Fin 3 → ℝ) → ℝ → ℝ),
    0 ≤ (List.zipWith (fun c d => (g c d) ^ 2) l1 l2).sum
  | [], _, _ => le_refl 0
  | _ :: _, [], _ => le_refl 0
  | c :: l1, d :: l2, g => by
      simp only [List.zipWith, List.sum_cons]
      exact add_nonneg (sq_nonneg _) (sum_sq_nonneg l1 l2 g)

/-! ## Lemmas: the site-pair screen -/

theorem mem_selectSLs (centroidOf : ℕ → Vec3 ℝ) :
    ∀ (l : List (ℕ × ℝ)) (e : SLentry), e ∈ selectSLs centroidOf l → 100 < e.vol
  | [], e => by simp [selectSLs]
  | (res, vol) :: rest, e => by
      simp only [selectSLs]
      by_cases h : (100 : ℝ) < vol
      · rw [if_pos h]
        intro hmem
        rcases List.mem_cons.1 hmem with rfl | hmem
        · exact h
        · exact mem_selectSLs centroidOf rest e hmem
      · rw [if_neg h]
        exact mem_selectSLs centroidOf rest e

theorem mem_pairsOf {β : Type _} :
    ∀ (l : List β) (p : β × β), p ∈ pairsOf l → p.1 ∈ l ∧ p.2 ∈ l
  | [], p => by simp [pairsOf]
  | x :: xs, p => by
      simp only [pairsOf, List.mem_append, List.mem_map]
      rintro (⟨y, hy, rfl⟩ | hmem)
      · exact ⟨List.mem_cons_self x xs, List.mem_cons_of_mem _ hy⟩
      · obtain ⟨h1, h2⟩ := mem_pairsOf xs p hmem
        exact ⟨List.mem_cons_of_mem _ h1, List.mem_cons_of_mem _ h2⟩

theorem mem_screenLoop_fst :
    ∀ (l : List (SLentry × SLentry)) (p : SLentry × SLentry),
    p ∈ (screenLoop l).1 → p ∈ l ∧ ¬ euclid p.1.centroid p.2.centroid < 25
  | [], p => by simp [screenLoop]
  | q :: rest, p => by
      simp only [screenLoop]
      by_cases h : euclid q.1.centroid q.2.centroid < 25
      · rw [if_pos h]
        intro hmem
        obtain ⟨h1, h2⟩ := mem_screenLoop_fst rest p hmem
        exact ⟨List.mem_cons_of_mem _ h1, h2⟩
      · rw [if_neg h]
        intro hmem
        rcases List.mem_cons.1 hmem with rfl | hmem
        · exact ⟨List.mem_cons_self _ _, h⟩
        · obtain ⟨h1, h2⟩ := mem_screenLoop_fst rest p hmem
          exact ⟨List.mem_cons_of_mem _ h1, h2⟩

theorem screenLoop_nth_corr :
    ∀ (l : List (SLentry × SLentry)) (k : ℕ) (q : SLentry × SLentry),
    nth (screenLoop l).1 k = some q → nth (screenLoop l).2 k = some (screenScore q)
  | [], k, q => by simp [screenLoop, nth]
  | p :: rest, k, q => by
      simp only [screenLoop]
      by_cases h : euclid p.1.centroid p.2.centroid < 25
      · rw [if_pos h]
        exact screenLoop_nth_corr rest k q
      · rw [if_neg h]
        match k with
        | 0 =>
            intro hq
            simp only [nth] at hq ⊢
            rw [← Option.some_inj.1 hq]
        | k + 1 =>
            exact screenLoop_nth_corr rest k q

theorem screenLoop_lengths : ∀ (l : List (SLentry × SLentry)),
    (screenLoop l).1.length = (screenLoop l).2.length
  | [] => rfl
  | p :: rest => by
      simp only [screenLoop]
      by_cases h : euclid p.1.centroid p.2.centroid < 25
      · rw [if_pos h]
        exact screenLoop_lengths rest
      · rw [if_neg h]
        simp [screenLoop_lengths rest]

theorem argminAux_spec {α : Type _} [LinearOrder α] :
    ∀ (xs : List α) (bi : ℕ) (bv : α) (ci : ℕ),
    (argminAux xs (bi, bv) ci).2 ≤ bv ∧
      (∀ x ∈ xs, (argminAux xs (bi, bv) ci).2 ≤ x) ∧
      (argminAux xs (bi, bv) ci = (bi, bv) ∨
        ∃ k, ∃ h : k < xs.length, argminAux xs (bi, bv) ci = (ci + k, xs.get ⟨k, h⟩))
  | [], bi, bv, ci => ⟨le_refl _, by simp, Or.inl rfl⟩
  | x :: xs, bi, bv, ci => by
      simp only [argminAux]
      by_cases h : x < bv
      · rw [if_pos h]
        obtain ⟨h1, h2, h3⟩ := argminAux_spec xs ci x (ci + 1)
        refine ⟨le_trans h1 (le_of_lt h), fun y hy => ?_, ?_⟩
        · rcases List.mem_cons.1 hy with rfl | hy
          · exact h1
          · exact h2 y hy
        · rcases h3 with he | ⟨k, hk, he⟩
          · exact Or.inr ⟨0, by simp, by simpa using he⟩
          · refine Or.inr ⟨k + 1, by simpa using hk, ?_⟩
            rw [he]
            simp only [List.get]
            congr 1
            omega
      · rw [if_neg h]
        obtain ⟨h1, h2, h3⟩ := argminAux_spec xs bi bv (ci + 1)
        refine ⟨h1, fun y hy => ?_, ?_⟩
        · rcases List.mem_cons.1 hy with rfl | hy
          · exact le_trans h1 (le_of_not_lt h)
          · exact h2 y hy
        · rcases h3 with he | ⟨k, hk, he⟩
          · exact Or.inl he
          · refine Or.inr ⟨k + 1, by simpa using hk, ?_⟩
            rw [he]
            simp only [List.get]
            congr 1
            omega

theorem argminIdx_spec {α : Type _} [LinearOrder α] (l : List α) (hne : l ≠ []) :
    ∃ m, nth l (argminIdx l) = some m ∧ ∀ s ∈ l, m ≤ s := by
  match l with
  | [] => exact absurd rfl hne
  | x :: xs =>
      obtain ⟨h1, h2, h3⟩ := argminAux_spec xs 0 x 1
      rcases h3 with he | ⟨k, hk, he⟩
      · refine ⟨x, ?_, ?_⟩
        · simp [argminIdx, he, nth]
        · intro s hs
          have hv : (argminAux xs (0, x) 1).2 = x := by rw [he]
          rcases List.mem_cons.1 hs with rfl | hs
          · exact le_refl s
          · rw [← hv]
            exact h2 s hs
      · refine ⟨xs.get ⟨k, hk⟩, ?_, ?_⟩
        · simp only [argminIdx, he]
          show nth (x :: xs) (1 + k) = some (xs.get ⟨k, hk⟩)
          rw [Nat.add_comm 1 k]
          show nth xs k = some (xs.get ⟨k, hk⟩)
          clear he h1 h2 hne
          induction xs generalizing k with
          | nil => simp at hk
          | cons y ys ih =>
              match k with
              | 0 => rfl
              | k + 1 => exact ih k (by simpa using hk)
        · intro s hs
          have hv : (argminAux xs (0, x) 1).2 = xs.get ⟨k, hk⟩ := by rw [he]
          rcases List.mem_cons.1 hs with rfl | hs
          · rw [← hv]; exact h1
          · rw [← hv]; exact h2 s hs

theorem nth_some_lt {α : Type _} {l : List α} {n : ℕ} {a : α} (h : nth l n = some a) :
    n < l.length := by
  by_contra hc
  rw [(nth_none_iff l n).2 (by omega)] at h
  exact Option.noConfusion h

theorem costMatrixLen {α : Type _} [Ring α] (refpos sub : List (Vec3 α)) :
    (costMatrix refpos sub).length = refpos.length := by
  simp [costMatrix]

/-! ## Claim theorems -/

/-- C1: invoking `OpenMMEnergyFunc` on a system whose `coords` holds `n`
candidate conformations returns exactly `n` energy values, the `i`-th being
the potential energy of the protein pose with the `i`-th conformation's
coordinates (gathered through the system's residue index map) substituted at
the system's selected atom indices. -/
theorem openmm_call_energy_per_conformation {α : Type _} [LinearOrderedRing α]
    (ef : OpenMMEnergyFunc α) (sys : MMSystem α) (i : ℕ) :
    ((callEfunc ef sys).1).length = sys.coords.length ∧
      nth (callEfunc ef sys).1 i =
        (nth sys.coords i).map (fun rot =>
          ef.energy (writeList ef.protein_pos
            (((callEfunc ef sys).2).efunc_protein_ix.getD [])
            (gatherD v3zero rot (((callEfunc ef sys).2).efunc_residue_ix.getD [])))) := by
  rcases hpi : sys.efunc_protein_ix with _ | ix0
  · simp only [callEfunc, hpi]
    rw [poseLoop_eq_map]
    constructor
    · simp [prepare_system]
    · rw [nth_map]
      simp [prepare_system]
  · simp only [callEfunc, hpi]
    rw [poseLoop_eq_map]
    constructor
    · simp
    · rw [nth_map]

/-- C7: preparation is lazy and idempotent: the first `__call__` on a fresh
system installs `efunc_protein_ix` and `efunc_residue_ix` exactly as
`prepare_system` does, and a second `__call__` on the resulting system leaves
its index maps (indeed, the whole system) unchanged. -/
theorem openmm_prepare_lazy_idempotent {α : Type _} [LinearOrderedRing α]
    (ef : OpenMMEnergyFunc α) (sys : MMSystem α) (h : sys.efunc_protein_ix = none) :
    (callEfunc ef sys).2 = prepare_system ef sys ∧
      (prepare_system ef sys).efunc_protein_ix = some (ef.selectIx sys.selstr) ∧
      (prepare_system ef sys).efunc_residue_ix =
        match_atoms ef.lsa (gatherD v3zero ef.protein_pos (ef.selectIx sys.selstr))
          sys.coords ∧
      (callEfunc ef ((callEfunc ef sys).2)).2 = (callEfunc ef sys).2 := by
  refine ⟨?_, rfl, rfl, ?_⟩
  · simp [callEfunc, h]
  · simp [callEfunc, h, prepare_system]

/-- C7 witness: evaluation of the laziness/idempotence statement on a
concrete two-atom protein and one-rotamer system over `ℚ`. -/
theorem openmm_prepare_lazy_idempotent_witness :
    (callEfunc wEf wSys).2 = prepare_system wEf wSys ∧
      (prepare_system wEf wSys).efunc_protein_ix = some (wEf.selectIx wSys.selstr) ∧
      (prepare_system wEf wSys).efunc_residue_ix =
        match_atoms wEf.lsa (gatherD v3zero wEf.protein_pos (wEf.selectIx wSys.selstr))
          wSys.coords ∧
      (callEfunc wEf ((callEfunc wEf wSys).2)).2 = (callEfunc wEf wSys).2 :=
  openmm_prepare_lazy_idempotent wEf wSys rfl

/-- C6: on a subject ensemble with at least one rotamer, all of the same atom
count as the reference, and with `linear_sum_assignment` meeting its
documented contract on every cost matrix passed to it, `match_atoms` returns
the column assignment of a rotamer whose assignment cost is minimal over all
rotamers, and that assignment is a permutation of the subject's atom
indices. -/
theorem match_atoms_min_rotamer_assignment {α : Type _} [LinearOrderedRing α]
    (lsa : List (List α) → List ℕ × List ℕ) (refpos : List (Vec3 α))
    (subjCoords : List (List (Vec3 α)))
    (hne : subjCoords ≠ [])
    (hsq : ∀ s ∈ subjCoords, s.length = refpos.length)
    (hlsa : ∀ s ∈ subjCoords,
      isOptimalAssignment (costMatrix refpos s) (lsa (costMatrix refpos s))) :
    ∃ s ∈ subjCoords,
      match_atoms lsa refpos subjCoords = some (colAssign lsa refpos s) ∧
        (∀ t ∈ subjCoords, rotScore lsa refpos s ≤ rotScore lsa refpos t) ∧
        (colAssign lsa refpos s).Perm (List.range s.length) := by
  match subjCoords, hne with
  | sub :: rest, _ =>
    obtain ⟨r, hr, hspec⟩ :=
      matchLoop_min lsa refpos rest (rotScore lsa refpos sub) (colAssign lsa refpos sub)
    have hma : match_atoms lsa refpos (sub :: rest) = some r := by
      rw [match_atoms, matchLoop]
      exact hr
    have hperm : ∀ s ∈ sub :: rest, (colAssign lsa refpos s).Perm (List.range s.length) := by
      intro s hs
      have h2 := (hlsa s hs).2.1
      rw [costMatrixLen, ← hsq s hs] at h2
      exact h2
    rcases hspec with ⟨rfl, hall⟩ | ⟨s, hs, rfl, hle, hall⟩
    · refine ⟨sub, List.mem_cons_self _ _, hma, ?_, hperm sub (List.mem_cons_self _ _)⟩
      intro t ht
      rcases List.mem_cons.1 ht with rfl | ht
      · exact le_refl _
      · exact hall t ht
    · refine ⟨s, List.mem_cons_of_mem _ hs, hma, ?_, hperm s (List.mem_cons_of_mem _ hs)⟩
      intro t ht
      rcases List.mem_cons.1 ht with rfl | ht
      · exact hle
      · exact hall t ht

/-- C6 witness: evaluation on a one-atom reference and a one-rotamer subject
over `ℚ`, with the identity assignment as the (optimal) `lsa` oracle. -/
theorem match_atoms_min_rotamer_assignment_witness :
    ∃ s ∈ wSubj,
      match_atoms wLsa wRef wSubj = some (colAssign wLsa wRef s) ∧
        (∀ t ∈ wSubj, rotScore wLsa wRef s ≤ rotScore wLsa wRef t) ∧
        (colAssign wLsa wRef s).Perm (List.range s.length) := by
  refine match_atoms_min_rotamer_assignment wLsa wRef wSubj (by simp [wSubj]) ?_ ?_
  · intro s hs
    rw [show s = [((1 : ℚ), 0, 0)] by simpa [wSubj] using hs]
    rfl
  · intro s hs
    rw [show s = [((1 : ℚ), 0, 0)] by simpa [wSubj] using hs]
    refine ⟨rfl, List.Perm.refl _, ?_⟩
    intro σ
    show assignScore (costMatrix wRef [((1 : ℚ), 0, 0)]) (List.range 1) (List.range 1) ≤
      ((List.finRange 1).map
        (fun (k : Fin 1) =>
          nthD (nthD (costMatrix wRef [((1 : ℚ), 0, 0)]) k.val []) (σ k).val 0)).sum
    have hσ : (σ (0 : Fin 1)).val = 0 := Fin.val_eq_zero _
    simp [wRef, assignScore, costMatrix, distSq, nthD, nth, hσ,
      List.finRange_succ, List.finRange_zero, List.range_succ, List.range_zero,
      List.zip]

/-- C4: the membrane-docking objective returns the sum, over sites, of the
squared difference between the z-coordinate of the origin-centred spin
centroid after the xyz-Euler rotation and the `(0, 0, zdepth)` translation
and the experimental depth — and is therefore nonnegative at every parameter
vector. -/
theorem objective_sum_of_squares_nonneg (spin_at_ori : List (Fin 3 → ℝ))
    (depths : List ℝ) (x y z zdepth : ℝ) :
    objective spin_at_ori depths (x, y, z, zdepth) =
      (List.zipWith (fun (v : Fin 3 → ℝ) d =>
        (Matrix.vecMul v (eulerXYZ x y z) 2 + zdepth - d) ^ 2) spin_at_ori depths).sum ∧
      0 ≤ objective spin_at_ori depths (x, y, z, zdepth) := by
  have key : objective spin_at_ori depths (x, y, z, zdepth) =
      (List.zipWith (fun (v : Fin 3 → ℝ) d =>
        (Matrix.vecMul v (eulerXYZ x y z) 2 + zdepth - d) ^ 2) spin_at_ori depths).sum := by
    simp only [objective]
    rw [List.zipWith_map_left]
    have hfun : (fun (v : Fin 3 → ℝ) (d : ℝ) =>
        (Matrix.vecMul v (eulerXYZ x y z) + ![0, 0, zdepth]) 2 - d) =
        fun (v : Fin 3 → ℝ) d => (Matrix.vecMul v (eulerXYZ x y z) 2 + zdepth) - d := by
      funext v d
      simp
    rw [hfun]
    exact dotL_self_zipWith_sub
      (fun v => Matrix.vecMul v (eulerXYZ x y z) 2 + zdepth) spin_at_ori depths
  refine ⟨key, ?_⟩
  rw [key]
  exact sum_sq_nonneg spin_at_ori depths _

/-- C5: every pair appended by the screening loop joins two residues whose
accessible volumes both exceed 100 and whose spin-centroid distance is at
least 25, and the reported pair (`pairs[np.argmin(scores)]`) attains the
minimum screening score among all appended pairs. -/
theorem site_pair_screen_spec (resnums : List ℕ) (vols : List ℝ)
    (centroidOf : ℕ → Vec3 ℝ)
    (h : (screenLoop (pairsOf (selectSLs centroidOf (resnums.zip vols)))).2 ≠ []) :
    (∀ p ∈ (screenLoop (pairsOf (selectSLs centroidOf (resnums.zip vols)))).1,
        100 < p.1.vol ∧ 100 < p.2.vol ∧ 25 ≤ euclid p.1.centroid p.2.centroid) ∧
      ∃ q, nth (screenLoop (pairsOf (selectSLs centroidOf (resnums.zip vols)))).1
            (argminIdx (screenLoop (pairsOf (selectSLs centroidOf (resnums.zip vols)))).2) =
            some q ∧
          nth (screenLoop (pairsOf (selectSLs centroidOf (resnums.zip vols)))).2
            (argminIdx (screenLoop (pairsOf (selectSLs centroidOf (resnums.zip vols)))).2) =
            some (screenScore q) ∧
          ∀ s ∈ (screenLoop (pairsOf (selectSLs centroidOf (resnums.zip vols)))).2,
            screenScore q ≤ s := by
  constructor
  · intro p hp
    obtain ⟨hmem, hdist⟩ :=
      mem_screenLoop_fst (pairsOf (selectSLs centroidOf (resnums.zip vols))) p hp
    obtain ⟨h1, h2⟩ := mem_pairsOf _ p hmem
    exact ⟨mem_selectSLs centroidOf _ p.1 h1, mem_selectSLs centroidOf _ p.2 h2,
      le_of_not_lt hdist⟩
  · obtain ⟨m, hm, hmin⟩ :=
      argminIdx_spec (screenLoop (pairsOf (selectSLs centroidOf (resnums.zip vols)))).2 h
    have hlt := nth_some_lt hm
    rw [← screenLoop_lengths] at hlt
    obtain ⟨q, hq⟩ := nth_lt_length _ _ hlt
    have hcorr := screenLoop_nth_corr _ _ q hq
    rw [hcorr] at hm
    have hms : m = screenScore q := (Option.some_inj.1 hm).symm
    subst hms
    exact ⟨q, hq, hcorr, hmin⟩

/-- C5 witness: evaluation on two residues of volume 101 whose spin centroids
are 30 Å apart, so the single candidate pair is appended and reported. -/
theorem site_pair_screen_spec_witness :
    (∀ p ∈ (screenLoop (pairsOf (selectSLs wCentroidOf (List.zip [1, 2] [101, 101])))).1,
        100 < p.1.vol ∧ 100 < p.2.vol ∧ 25 ≤ euclid p.1.centroid p.2.centroid) ∧
      ∃ q, nth (screenLoop (pairsOf (selectSLs wCentroidOf (List.zip [1, 2] [101, 101])))).1
            (argminIdx (screenLoop (pairsOf (selectSLs wCentroidOf
              (List.zip [1, 2] [101, 101])))).2) = some q ∧
          nth (screenLoop (pairsOf (selectSLs wCentroidOf (List.zip [1, 2] [101, 101])))).2
            (argminIdx (screenLoop (pairsOf (selectSLs wCentroidOf
              (List.zip [1, 2] [101, 101])))).2) = some (screenScore q) ∧
          ∀ s ∈ (screenLoop (pairsOf (selectSLs wCentroidOf (List.zip [1, 2] [101, 101])))).2,
            screenScore q ≤ s := by
  refine site_pair_screen_spec [1, 2] [101, 101] wCentroidOf ?_
  have hz : List.zip [1, 2] [(101 : ℝ), 101] = [(1, 101), (2, 101)] := rfl
  have hsel : selectSLs wCentroidOf [(1, (101 : ℝ)), (2, 101)] =
      [⟨1, wCentroidOf 1, 101⟩, ⟨2, wCentroidOf 2, 101⟩] := by
    rw [selectSLs, if_pos (by norm_num : (100 : ℝ) < 101),
      selectSLs, if_pos (by norm_num : (100 : ℝ) < 101), selectSLs]
  have hpairs : pairsOf [(⟨1, wCentroidOf 1, 101⟩ : SLentry), ⟨2, wCentroidOf 2, 101⟩] =
      [(⟨1, wCentroidOf 1, 101⟩, ⟨2, wCentroidOf 2, 101⟩)] := rfl
  have hd : euclid (wCentroidOf 1) (wCentroidOf 2) = 30 := by
    have hc1 : wCentroidOf 1 = (0, 0, 0) := by simp [wCentroidOf]
    have hc2 : wCentroidOf 2 = (30, 0, 0) := by norm_num [wCentroidOf]
    rw [hc1, hc2, euclid, show distSq ((0 : ℝ), 0, 0) ((30 : ℝ), 0, 0) = 30 ^ 2 by
      norm_num [distSq]]
    exact Real.sqrt_sq (by norm_num)
  rw [hz, hsel, hpairs, screenLoop]
  rw [if_neg (by rw [hd]; norm_num), screenLoop]
  simp

/-- C2 counterexample: not every `xl.save` call in the repository passes an
output path as its first argument — the site-pair screen notebook calls
`xl.save(SL1, SL2, t4l)`, whose first argument is a spin label. -/
theorem save_first_arg_claim_false :
    ¬ ∀ c ∈ saveCalls, firstArgIsPath c = true := by decide

/-- C2 amended: every `xl.save` call either passes an output path first,
followed only by label/protein objects and keyword arguments, or passes only
label/protein objects and no path at all. -/
theorem save_calls_path_or_objects :
    (saveCalls.all fun c =>
      (firstArgIsPath c && c.args.tail.all fun a => isObjLike a || isKw a) ||
        c.args.all isObjLike) = true := by decide

/-- C3: the first three notebooks resolve every external name to an earlier
cell's binding (or a builtin), but the arbitrary-molecular-labels notebook
references `labels` (in its distance-distribution cell) and `prot` (in its
plotting/save cell) even though no cell of that notebook binds either name,
so running it top-to-bottom raises `NameError`. -/
theorem nb12_unbound_names :
    notebookBindsOk partScreenCells = true ∧
      notebookBindsOk membraneDockingCells = true ∧
      notebookBindsOk openMMCells = true ∧
      notebookBindsOk arbLabelsCells = false ∧
      "labels" ∈ (nthD arbLabelsCells 3 ⟨[], []⟩).uses ∧
      "labels" ∉ allBinds arbLabelsCells ∧
      "prot" ∈ (nthD arbLabelsCells 4 ⟨[], []⟩).uses ∧
      "prot" ∉ allBinds arbLabelsCells := by decide

/-- C8 counterexample: it is not the case that no authored code path performs
cleanup on error — the `with TemporaryDirectory()` block in the OpenMM
notebook removes the temporary directory even when its body raises. -/
theorem error_handling_claim_false :
    ¬ (allRepoStmts.all fun s => !performsCleanupOnError s) = true := by decide

/-- C8 amended: no authored statement catches or retries exceptions (there is
no `try`/`except` anywhere, so exceptions propagate unchanged); the only
cleanup-on-error construct is the single `with` block, in the OpenMM
notebook. -/
theorem no_try_except_single_with :
    (allRepoStmts.all fun s => !catchesExceptions s) = true ∧
      allRepoStmts.count StmtKind.withBlock = 1 ∧
      StmtKind.withBlock ∈ openMMStmts := by decide

/-- C9: a distance-distribution computation over a distance grid returns one
probability-density entry per grid point. -/
theorem distance_distribution_entry_per_grid_point {L : Type _}
    (densityAt : List L → ℝ → ℝ) (labels : List L) (r : List ℝ) :
    (distance_distribution densityAt labels r).length = r.length := by
  simp [distance_distribution]

/-- C10 counterexample: the notebooks do not access label ensembles only
through `spin_centroid` and `coords` — e.g. the site-pair screen notebook
reads `SL1.site`/`SL2.site`. -/
theorem label_interface_claim_false :
    ¬ ∀ a ∈ labelAttrAccesses, a.2 ∈ ensembleInterface := by decide

/-- C10 amended: beyond `spin_centroid` and `coords`, the notebooks access
exactly the additional ensemble attributes `site`, `to_site`, `selstr`,
`efunc_protein_ix` and `efunc_residue_ix`. -/
theorem label_attr_accesses_extended :
    (labelAttrAccesses.all fun a =>
      ensembleInterface.contains a.2 ||
        (["site", "to_site", "selstr", "efunc_protein_ix",
          "efunc_residue_ix"].contains a.2)) = true := by decide
